import Mathlib

/-!
Verification of the chunked parallel task-processing engine of
`src/engine/agents/utilities/chunked_processor.py`.

The Python module is shallowly embedded: dataclasses become structures,
Python `dict`s with string keys become association lists with
insertion-order update semantics, fallible operations return
`Except String`, and `float` configuration fields are modelled as `ℚ`
(they are only ever multiplied and compared).  The async scheduler is
modelled by its per-chunk, per-attempt behaviour: the processing
callback for a chunk is a function from the attempt index to either a
raised exception (`Except.error` with the exception text) or a returned
result dictionary (`Except.ok`).
-/

/-- Embedding of the `ChunkConfig` dataclass with its field defaults.
`rate_limit_delay` and `retry_delay` are `float` in the source, modelled
as rationals. -/
structure ChunkConfig where
  max_files_per_chunk : Nat := 5
  max_tokens_per_chunk : Nat := 50000
  max_parallel_chunks : Nat := 3
  rate_limit_delay : ℚ := 2
  retry_attempts : Nat := 3
  retry_delay : ℚ := 5

/-- The default configuration `ChunkConfig()` used when
`ChunkedProcessor` is constructed without an explicit config. -/
def defaultChunkConfig : ChunkConfig := {}

/-- A project file record as consumed by `split_project_into_chunks`.
The source reads the keys `file_path`, `file_type` and `content` with
`dict.get(key, default)`, so each is modelled as an optional string
(`none` models a missing key). -/
structure FileInfo where
  file_path : Option String := none
  file_type : Option String := none
  content : Option String := none
deriving DecidableEq

/-- Embedding of the `ProcessingChunk` dataclass. -/
structure ProcessingChunk where
  chunk_id : String
  files : List FileInfo
  estimated_tokens : Nat
  priority : Nat := 0
deriving DecidableEq

/-- Model of Python `str.lower()` (ASCII paths): lower-case every
character. -/
def pyLower (s : String) : String :=
  String.mk (s.data.map Char.toLower)

/-- Model of Python `str.endswith(post)`: the characters of `post` are a
suffix of the characters of `s`. -/
def pyEndsWith (s post : String) : Bool :=
  post.data.isSuffixOf s.data

/-- Embedding of `ChunkedProcessor._get_file_priority`. -/
def get_file_priority (f : FileInfo) : Nat :=
  let fp := pyLower (f.file_path.getD "")
  let ft := f.file_type.getD ""
  if pyEndsWith fp ".html" ∨ ft = "html" then 100
  else if pyEndsWith fp ".css" ∨ ft = "css" then 80
  else if pyEndsWith fp ".js" ∨ pyEndsWith fp ".jsx" ∨ pyEndsWith fp ".ts" ∨
          pyEndsWith fp ".tsx" ∨ ft = "javascript" ∨ ft = "typescript" then 60
  else if pyEndsWith fp ".png" ∨ pyEndsWith fp ".jpg" ∨ pyEndsWith fp ".jpeg" ∨
          pyEndsWith fp ".gif" ∨ pyEndsWith fp ".svg" then 40
  else 20

/-- Embedding of `ChunkedProcessor._calculate_chunk_priority`: the
floor-average of the files' priorities (Python `//`). -/
def calculate_chunk_priority (files : List FileInfo) : Nat :=
  if files.isEmpty then 0
  else (files.map get_file_priority).sum / files.length

/-- Embedding of `ChunkedProcessor._estimate_tokens`: `content` defaults
to the empty string, a falsy (empty or missing) content yields the fixed
estimate 1000, otherwise `len(content) // 4`. -/
def estimate_tokens (f : FileInfo) : Nat :=
  let content := f.content.getD ""
  if content = "" then 1000
  else content.length / 4

/-- The mutable loop state of `split_project_into_chunks`:
the `chunks` list built so far, the `current_chunk` file list, the
running `current_tokens` total and the next `chunk_id` counter. -/
structure SplitState where
  chunks : List ProcessingChunk
  current_chunk : List FileInfo
  current_tokens : Nat
  chunk_id : Nat

/-- Construction of one `ProcessingChunk` as in the two
`chunks.append(ProcessingChunk(...))` sites of the source. -/
def mkChunk (cid : Nat) (files : List FileInfo) (tokens : Nat) : ProcessingChunk :=
  { chunk_id := "chunk_" ++ toString cid
    files := files
    estimated_tokens := tokens
    priority := calculate_chunk_priority files }

/-- One iteration of the `for file_info in sorted_files` loop of
`split_project_into_chunks`. -/
def splitStep (cfg : ChunkConfig) (s : SplitState) (file_info : FileInfo) : SplitState :=
  let file_tokens := estimate_tokens file_info
  if cfg.max_files_per_chunk ≤ s.current_chunk.length ∨
      cfg.max_tokens_per_chunk < s.current_tokens + file_tokens then
    if s.current_chunk = [] then
      { s with current_chunk := [file_info], current_tokens := file_tokens }
    else
      { chunks := s.chunks ++ [mkChunk s.chunk_id s.current_chunk s.current_tokens]
        current_chunk := [file_info]
        current_tokens := file_tokens
        chunk_id := s.chunk_id + 1 }
  else
    { s with
        current_chunk := s.current_chunk ++ [file_info]
        current_tokens := s.current_tokens + file_tokens }

/-- The `if current_chunk:` final-chunk flush after the loop of
`split_project_into_chunks`. -/
def finalizeSplit (s : SplitState) : List ProcessingChunk :=
  if s.current_chunk = [] then s.chunks
  else s.chunks ++ [mkChunk s.chunk_id s.current_chunk s.current_tokens]

/-- The descending-priority file order used by
`sorted(project_files, key=self._get_file_priority, reverse=True)`. -/
def filePriorityGe (a b : FileInfo) : Prop :=
  get_file_priority b ≤ get_file_priority a

instance : DecidableRel filePriorityGe := fun _ _ => Nat.decLe _ _

/-- The descending-priority chunk order used by
`chunks.sort(key=lambda x: x.priority, reverse=True)`. -/
def chunkPriorityGe (a b : ProcessingChunk) : Prop :=
  b.priority ≤ a.priority

instance : DecidableRel chunkPriorityGe := fun _ _ => Nat.decLe _ _

/-- Embedding of `ChunkedProcessor.split_project_into_chunks`.  Python's
stable `sorted`/`list.sort` are modelled by `List.insertionSort` (the
claims proved below depend only on the sorted output being a
permutation, respectively on sorting an already-sorted list being the
identity). -/
def split_project_into_chunks (cfg : ChunkConfig) (project_files : List FileInfo) :
    List ProcessingChunk :=
  let sorted_files := List.insertionSort filePriorityGe project_files
  let s := sorted_files.foldl (splitStep cfg) ⟨[], [], 0, 0⟩
  let chunks := finalizeSplit s
  List.insertionSort chunkPriorityGe chunks

/-- The shape of a dictionary returned by a processing callback, as far
as the scheduler inspects it: the `success` flag (read by
`chunk_result.get('success', False)`, so a missing or falsy key is
`false`) and the optional `error` text.  Other keys of the returned
dictionary are opaque to the scheduler. -/
structure RawResult where
  success : Bool := false
  error : Option String := none
deriving DecidableEq

/-- A chunk result as recorded by the scheduler: the raw result with the
`chunk_id` and `attempt` keys set by `_process_chunk_with_retry`, or the
failure dictionary it builds after an exception. -/
structure ChunkResult where
  chunk_id : String
  success : Bool
  error : Option String
  attempt : Nat
deriving DecidableEq

/-- The observable behaviour of `_process_chunk_with_retry` for one
chunk: the returned result dictionary, how many times the processing
callback was invoked, and the durations of the `asyncio.sleep` backoff
calls, in order. -/
structure RetryTrace where
  result : ChunkResult
  invocations : Nat
  sleeps : List ℚ
deriving DecidableEq

/-- Embedding of the `for attempt in range(self.config.retry_attempts)`
loop of `_process_chunk_with_retry`, entered at loop index `attempt`.
The recursion is structural on `fuel`, the number of loop indices still
to run; every call maintains `fuel = cfg.retry_attempts - attempt`, so
`fuel = 0` is exactly the loop running out (the fall-through return
after the `for`) and under that invariant the source's continuation test
`attempt < retry_attempts` is `0 < fuel`.  The processing callback is
modelled per attempt: `proc k` is either the dictionary returned by the
callback on invocation `k` (`Except.ok`) or the text of the exception it
raises (`Except.error`).  The semaphore acquisition inside the loop body
does not affect the per-chunk result and is not part of the state. -/
def retryGo (cfg : ChunkConfig) (chunk : ProcessingChunk)
    (proc : Nat → Except String RawResult) : Nat → Nat → RetryTrace
  | _, 0 =>
      { result := ⟨chunk.chunk_id, false, some "Max retry attempts exceeded", cfg.retry_attempts⟩
        invocations := 0
        sleeps := [] }
  | attempt, fuel + 1 =>
      match proc attempt with
      | .ok result =>
          { result := ⟨chunk.chunk_id, result.success, result.error, attempt + 1⟩
            invocations := 1
            sleeps := [] }
      | .error e =>
          if attempt < cfg.retry_attempts - 1 then
            let rest := retryGo cfg chunk proc (attempt + 1) fuel
            { result := rest.result
              invocations := rest.invocations + 1
              sleeps := cfg.retry_delay * (attempt + 1) :: rest.sleeps }
          else
            { result := ⟨chunk.chunk_id, false, some e, attempt + 1⟩
              invocations := 1
              sleeps := [] }

/-- The full retry loop of `_process_chunk_with_retry`, from loop index
0 with all `retry_attempts` indices to run. -/
def retryRun (cfg : ChunkConfig) (chunk : ProcessingChunk)
    (proc : Nat → Except String RawResult) : RetryTrace :=
  retryGo cfg chunk proc 0 cfg.retry_attempts

/-- Embedding of `_process_chunk_with_retry`: run the retry loop and
return the recorded result dictionary. -/
def process_chunk_with_retry (cfg : ChunkConfig) (chunk : ProcessingChunk)
    (proc : Nat → Except String RawResult) : ChunkResult :=
  (retryRun cfg chunk proc).result

/-- The `results` dictionary built by `process_chunks_parallel`
(`processing_time` is wall-clock time and is not modelled). -/
structure RunResults where
  successful_chunks : List ChunkResult
  failed_chunks : List ChunkResult
  total_chunks : Nat
deriving DecidableEq

/-- One iteration of the `for i, task in enumerate(tasks)` loop of
`process_chunks_parallel`: append the awaited chunk result to
`successful_chunks` if its `success` value is truthy, else to
`failed_chunks`. -/
def classifyStep (acc : List ChunkResult × List ChunkResult) (r : ChunkResult) :
    List ChunkResult × List ChunkResult :=
  if r.success then (acc.1 ++ [r], acc.2) else (acc.1, acc.2 ++ [r])

/-- Embedding of `process_chunks_parallel`.  Each chunk's task is the
retry wrapper around the caller-supplied callback; tasks never raise
(every exception inside the loop body of `_process_chunk_with_retry` is
caught there), so the `except` arm of the awaiting loop, which would
record a synthetic failed result, is unreachable and the loop reduces to
classifying each chunk's result in submission order. -/
def process_chunks_parallel (cfg : ChunkConfig) (chunks : List ProcessingChunk)
    (proc : ProcessingChunk → Nat → Except String RawResult) : RunResults :=
  let results := chunks.map (fun c => (retryRun cfg c (proc c)).result)
  let acc := results.foldl classifyStep ([], [])
  { successful_chunks := acc.1
    failed_chunks := acc.2
    total_chunks := chunks.length }

/-- A file-chunk dictionary as built by `FileChunker.split_large_file`.
File contents are modelled as character lists.  The single-chunk branch
omits the `original_file` key, modelled by `none`. -/
structure FileChunk where
  file_path : String
  content : List Char
  chunk_index : Nat
  original_file : Option String := none
deriving DecidableEq

/-- Model of Python `content.split('\n')`: split a character list at
every newline; the empty content yields one empty line, and a trailing
newline yields a trailing empty line. -/
def splitOnNl : List Char → List (List Char)
  | [] => [[]]
  | c :: rest =>
      if c = '\n' then [] :: splitOnNl rest
      else
        match splitOnNl rest with
        | [] => [[c]]
        | l :: ls => (c :: l) :: ls

/-- Model of Python `'\n'.join(parts)` on character lists. -/
def joinNl : List (List Char) → List Char
  | [] => []
  | [l] => l
  | l :: ls => l ++ '\n' :: joinNl ls

/-- Embedding of the `FileChunker` class configuration. -/
structure FileChunker where
  max_chunk_size : Nat := 10000

/-- The mutable loop state of `split_large_file`: the emitted chunks,
the current line group, its running size and the next chunk index. -/
structure FileSplitState where
  chunks : List FileChunk
  current_chunk : List (List Char)
  current_size : Nat
  chunk_index : Nat

/-- Construction of one part dictionary as in the two
`chunks.append({...})` sites of `split_large_file`. -/
def mkFileChunk (file_path : String) (i : Nat) (cur : List (List Char)) : FileChunk :=
  { file_path := file_path ++ ".part" ++ toString i
    content := joinNl cur
    chunk_index := i
    original_file := some file_path }

/-- One iteration of the `for line in lines` loop of
`split_large_file`. -/
def fileStep (fc : FileChunker) (file_path : String) (s : FileSplitState)
    (line : List Char) : FileSplitState :=
  let line_size := line.length + 1
  if fc.max_chunk_size < s.current_size + line_size ∧ s.current_chunk ≠ [] then
    { chunks := s.chunks ++ [mkFileChunk file_path s.chunk_index s.current_chunk]
      current_chunk := [line]
      current_size := line_size
      chunk_index := s.chunk_index + 1 }
  else
    { s with
        current_chunk := s.current_chunk ++ [line]
        current_size := s.current_size + line_size }

/-- The `if current_chunk:` final-chunk flush after the loop of
`split_large_file`. -/
def finalizeFileSplit (file_path : String) (s : FileSplitState) : List FileChunk :=
  if s.current_chunk = [] then s.chunks
  else s.chunks ++ [mkFileChunk file_path s.chunk_index s.current_chunk]

/-- Embedding of `FileChunker.split_large_file`. -/
def split_large_file (fc : FileChunker) (file_path : String) (content : List Char) :
    List FileChunk :=
  if content.length ≤ fc.max_chunk_size then
    [{ file_path := file_path, content := content, chunk_index := 0 }]
  else
    let lines := splitOnNl content
    finalizeFileSplit file_path (lines.foldl (fileStep fc file_path) ⟨[], [], 0, 0⟩)

/-- The ascending-index order used by
`sorted(chunks, key=lambda x: x.get('chunk_index', 0))`. -/
def chunkIndexLe (a b : FileChunk) : Prop :=
  a.chunk_index ≤ b.chunk_index

instance : DecidableRel chunkIndexLe := fun _ _ => Nat.decLe _ _

/-- Embedding of `FileChunker.merge_file_chunks`. -/
def merge_file_chunks (chunks : List FileChunk) : List Char :=
  let sorted_chunks := List.insertionSort chunkIndexLe chunks
  joinNl (sorted_chunks.map (·.content))

/-- An untyped Python value as far as `merge_chunk_results` inspects
one: booleans, integers, strings, lists and string-keyed dictionaries.
Dictionaries are association lists in insertion order. -/
inductive PVal where
  | pbool : Bool → PVal
  | pint : Int → PVal
  | pstr : String → PVal
  | plist : List PVal → PVal
  | pdict : List (String × PVal) → PVal

/-- A Python dictionary with string keys and values of type `α`, in
insertion order. -/
abbrev PyDict (α : Type) := List (String × α)

/-- Python `d.get(k, dflt)`. -/
def dictGetD {α : Type} (d : PyDict α) (k : String) (dflt : α) : α :=
  match d.find? (fun kv => kv.1 = k) with
  | some kv => kv.2
  | none => dflt

/-- Python `d[k] = v`: overwrite in place if the key exists (keeping its
position), else append. -/
def dictSet {α : Type} (d : PyDict α) (k : String) (v : α) : PyDict α :=
  if d.any (fun kv => kv.1 = k) then
    d.map (fun kv => if kv.1 = k then (k, v) else kv)
  else d ++ [(k, v)]

/-- Python truthiness of a value, as used by
`if not chunk_result.get('success', False)`. -/
def pyTruthy : PVal → Bool
  | .pbool b => b
  | .pint n => n ≠ 0
  | .pstr s => s ≠ ""
  | .plist l => !l.isEmpty
  | .pdict d => !d.isEmpty

/-- Python `dict.update(other)`: a mapping merges key by key; an
iterable must consist of key-value pairs; any other value raises
`TypeError`.  Pairs are modelled as two-element lists with a string
key. -/
def dictUpdateVal (d : PyDict PVal) : PVal → Except String (PyDict PVal)
  | .pdict d2 => .ok (d2.foldl (fun acc kv => dictSet acc kv.1 kv.2) d)
  | .plist l =>
      l.foldlM
        (fun acc e =>
          match e with
          | .plist [.pstr k, v] => Except.ok (dictSet acc k v)
          | _ => Except.error "TypeError: cannot convert dictionary update sequence element to a sequence")
        d
  | _ => .error "TypeError: argument of dict.update is not a mapping"

/-- Python iteration over a value, as used by `list.extend`: lists yield
their elements, strings their one-character strings, dictionaries their
keys; booleans and integers raise `TypeError`. -/
def pyIter : PVal → Except String (List PVal)
  | .plist l => .ok l
  | .pstr s => .ok (s.data.map (fun c => .pstr (String.mk [c])))
  | .pdict d => .ok (d.map (fun kv => .pstr kv.1))
  | _ => .error "TypeError: object is not iterable"

/-- Python `len(v)` for sized values; booleans and integers raise
`TypeError`. -/
def pyLen : PVal → Except String Nat
  | .plist l => .ok l.length
  | .pstr s => .ok s.length
  | .pdict d => .ok d.length
  | _ => .error "TypeError: object has no length"

/-- Python `v.values()`: only dictionaries have it
(`AttributeError` otherwise). -/
def pyValues : PVal → Except String (List PVal)
  | .pdict d => .ok (d.map (fun kv => kv.2))
  | _ => .error "AttributeError: object has no attribute values"

/-- The test `a.get('status') == 'success'` applied to one entry of
`chunk_analyses.values()`: `a` must be a dictionary
(`AttributeError` otherwise); a missing `status` key (`None`) or a
non-equal value compares unequal. -/
def analysisIsSuccess : PVal → Except String Bool
  | .pdict d =>
      .ok (match d.find? (fun kv => kv.1 = "status") with
        | some (_, .pstr s) => s = "success"
        | _ => false)
  | _ => .error "AttributeError: object has no attribute get"

/-- Python `repr(v)` as rendered inside container displays (string
escaping inside quotes is not modelled). -/
def pyReprVal : PVal → String
  | .pbool b => if b then "True" else "False"
  | .pint n => toString n
  | .pstr s => "\x27" ++ s ++ "\x27"
  | .plist l =>
      "[" ++ String.intercalate ", " (l.attach.map (fun x => pyReprVal x.1)) ++ "]"
  | .pdict d =>
      "\x7b" ++
        String.intercalate ", "
          (d.attach.map (fun x => "\x27" ++ x.1.1 ++ "\x27: " ++ pyReprVal x.1.2)) ++
      "\x7d"
termination_by v => sizeOf v
decreasing_by
  · have := List.sizeOf_lt_of_mem x.2
    simp only [PVal.plist.sizeOf_spec]
    omega
  · obtain ⟨⟨k, v⟩, hmem⟩ := x
    have := List.sizeOf_lt_of_mem hmem
    simp only [PVal.pdict.sizeOf_spec, Prod.mk.sizeOf_spec] at *
    omega

/-- Python `str(v)` as used by f-string interpolation. -/
def pyStr : PVal → String
  | .pstr s => s
  | v => pyReprVal v

/-- The `summary` sub-dictionary of the merged result. -/
structure MergeSummary where
  total_files : Nat
  successful_files : Nat
  failed_files : Nat
  total_chunks : Nat
deriving DecidableEq

/-- The `merged` dictionary returned by `merge_chunk_results`. -/
structure MergedResult where
  status : String
  file_analyses : PyDict PVal
  patterns : List PVal
  dependencies : PyDict (List PVal)
  summary : MergeSummary

/-- The accumulating fields of `merged` during the
`for chunk_result in chunk_results` loop (`failed_files` is only
computed after the loop). -/
structure MergeAcc where
  file_analyses : PyDict PVal
  patterns : List PVal
  dependencies : PyDict (List PVal)
  total_files : Nat
  successful_files : Nat

/-- The `for dep_type, deps in chunk_deps.items()` inner loop of the
merging loop: `chunk_deps` must be a dictionary (`.items()` raises
`AttributeError` otherwise); each dependency-kind list is extended into
the accumulated dependency map (missing kinds start from `[]`). -/
def mergeDeps (deps : PyDict (List PVal)) : PVal → Except String (PyDict (List PVal))
  | .pdict d =>
      d.foldlM
        (fun (m : PyDict (List PVal)) kv => do
          let cur := dictGetD m kv.1 []
          let items ← pyIter kv.2
          pure (dictSet m kv.1 (cur ++ items)))
        deps
  | _ => Except.error "AttributeError: object has no attribute items"

/-- The `chunk_result.get('success', False)` truthiness test of the
merging loop. -/
def successTruthy (chunk_result : PyDict PVal) : Bool :=
  pyTruthy (dictGetD chunk_result "success" (.pbool false))

/-- The per-analysis test `a.get('status') == 'success'` as a total
Boolean (false on non-dictionaries, where the real code would raise
before reaching the comparison). -/
def statusSuccess : PVal → Bool
  | .pdict d =>
      (match d.find? (fun kv => kv.1 = "status") with
        | some (_, .pstr s) => s = "success"
        | _ => false)
  | _ => false

/-- One iteration of the merging loop of `merge_chunk_results`: skip
chunk results whose `success` value is falsy, otherwise merge
`file_analyses`, extend `patterns`, union the `dependencies` lists and
add this chunk's analysis counts to the summary totals.  Any `TypeError`
or `AttributeError` raised on a malformed field propagates. -/
def mergeChunkStep (acc : MergeAcc) (chunk_result : PyDict PVal) :
    Except String MergeAcc := do
  if !successTruthy chunk_result then
    return acc
  let chunk_analyses := dictGetD chunk_result "file_analyses" (.pdict [])
  let fa ← dictUpdateVal acc.file_analyses chunk_analyses
  let chunk_patterns := dictGetD chunk_result "patterns" (.plist [])
  let pats ← pyIter chunk_patterns
  let chunk_deps := dictGetD chunk_result "dependencies" (.pdict [])
  let deps ← mergeDeps acc.dependencies chunk_deps
  let n ← pyLen chunk_analyses
  let vals ← pyValues chunk_analyses
  let succ ←
    vals.foldlM
      (fun (k : Nat) a => do
        let b ← analysisIsSuccess a
        pure (if b then k + 1 else k))
      0
  return { file_analyses := fa
           patterns := acc.patterns ++ pats
           dependencies := deps
           total_files := acc.total_files + n
           successful_files := acc.successful_files + succ }

/-- One iteration of `_deduplicate_patterns`: each pattern must be a
dictionary (`pattern.get` raises `AttributeError` otherwise); its key is
`f"{name}:{type}"` with empty-string defaults; first occurrence of a key
wins. -/
def dedupStep (acc : List String × List PVal) (p : PVal) :
    Except String (List String × List PVal) :=
  match p with
  | .pdict d =>
      let key := pyStr (dictGetD d "name" (.pstr "")) ++ ":" ++ pyStr (dictGetD d "type" (.pstr ""))
      if acc.1.contains key then .ok acc
      else .ok (acc.1 ++ [key], acc.2 ++ [p])
  | _ => .error "AttributeError: object has no attribute get"

/-- Embedding of `ChunkedProcessor._deduplicate_patterns`. -/
def deduplicate_patterns (patterns : List PVal) : Except String (List PVal) := do
  let acc ← patterns.foldlM dedupStep ([], [])
  return acc.2

/-- Embedding of `ChunkedProcessor.merge_chunk_results`. -/
def merge_chunk_results (chunk_results : List (PyDict PVal)) :
    Except String MergedResult := do
  let acc ← chunk_results.foldlM mergeChunkStep ⟨[], [], [], 0, 0⟩
  let patterns ← deduplicate_patterns acc.patterns
  return { status := "success"
           file_analyses := acc.file_analyses
           patterns := patterns
           dependencies := acc.dependencies
           summary := { total_files := acc.total_files
                        successful_files := acc.successful_files
                        failed_files := acc.total_files - acc.successful_files
                        total_chunks := chunk_results.length } }

/-- The error text of an `Except`, `none` on success; used to state
facts about aborted merges without comparing whole results. -/
def errorText {α : Type} : Except String α → Option String
  | .error e => some e
  | .ok _ => none

/-- The success value of an `Except`, `none` on error. -/
def okValue {α : Type} : Except String α → Option α
  | .ok a => some a
  | .error _ => none

/-! ## Claim C9: token-estimate monotonicity -/

/-- Claim C9 counterexample: the estimate is not monotone in payload
length, and non-empty payloads can fall below the empty-payload floor.
An empty content (length 0) is estimated at 1000 tokens, while `"ab"`
(length 2) is estimated at 0 and `"abcd"` (length 4) at 1, both far
below the floor assigned to the empty payload. -/
theorem C9_counterexample :
    ("" : String).length ≤ ("ab" : String).length ∧
    estimate_tokens ⟨none, none, some ""⟩ = 1000 ∧
    estimate_tokens ⟨none, none, some "ab"⟩ = 0 ∧
    estimate_tokens ⟨none, none, some "abcd"⟩ = 1 ∧
    ¬ estimate_tokens ⟨none, none, some ""⟩ ≤ estimate_tokens ⟨none, none, some "ab"⟩ := by
  decide

/-- Claim C9 amended: the estimate is a deterministic function of the
content alone; empty or missing content gets the fixed default 1000; and
restricted to non-empty contents the estimate is monotone in content
length.  (As stated the claim fails: monotonicity does not extend across
the empty/non-empty boundary, and non-empty estimates may lie below the
1000 floor.) -/
theorem C9_amended :
    (∀ f g : FileInfo, f.content = g.content → estimate_tokens f = estimate_tokens g) ∧
    (∀ f : FileInfo, f.content = none ∨ f.content = some "" → estimate_tokens f = 1000) ∧
    (∀ (f g : FileInfo) (a b : String), f.content = some a → g.content = some b →
      a ≠ "" → b ≠ "" → a.length ≤ b.length → estimate_tokens f ≤ estimate_tokens g) := by
  refine ⟨fun f g h => by simp [estimate_tokens, h], fun f h => ?_, ?_⟩
  · rcases h with h | h <;> simp [estimate_tokens, h]
  · intro f g a b hf hg ha hb hab
    simp only [estimate_tokens, hf, hg, Option.getD_some, if_neg ha, if_neg hb]
    exact Nat.div_le_div_right hab

/-- Witness for `C9_amended` at concrete inputs. -/
theorem C9_witness :
    estimate_tokens ⟨none, none, some "abcd"⟩ = estimate_tokens ⟨some "x", none, some "abcd"⟩ ∧
    estimate_tokens ⟨none, some "t", none⟩ = 1000 ∧
    estimate_tokens ⟨none, none, some "abcd"⟩ ≤ estimate_tokens ⟨none, none, some "abcdefgh"⟩ := by
  refine ⟨C9_amended.1 _ _ rfl, C9_amended.2.1 _ (Or.inl rfl), ?_⟩
  exact C9_amended.2.2 _ _ "abcd" "abcdefgh" rfl rfl (by decide) (by decide) (by decide)

/-! ## Claim C7: malformed work items in `split_project_into_chunks` -/

/-- Claim C7 counterexample: a work item missing every field
(`file_path`, `file_type` and `content` all absent) does not make the
partition fail; `split_project_into_chunks` substitutes defaults and
returns a normal chunk list containing the item (default priority 20,
default token estimate 1000).  No error is surfaced. -/
theorem C7_counterexample :
    split_project_into_chunks defaultChunkConfig [⟨none, none, none⟩] =
      [⟨"chunk_0", [⟨none, none, none⟩], 1000, 20⟩] := by
  decide

/-- Claim C7 amended: a work item with all fields missing is tolerated,
not rejected: `dict.get` defaults substitute the empty string for the
path and type and the 1000-token default estimate for the content, and
the item is placed in a normal chunk, under any configuration. -/
theorem C7_amended (cfg : ChunkConfig) (it : FileInfo)
    (h1 : it.file_path = none) (h2 : it.file_type = none) (h3 : it.content = none) :
    split_project_into_chunks cfg [it] = [⟨"chunk_0", [it], 1000, 20⟩] := by
  obtain ⟨fp, ft, ct⟩ := it
  simp only at h1 h2 h3
  subst h1 h2 h3
  simp only [split_project_into_chunks, List.insertionSort, List.orderedInsert, List.foldl,
    splitStep, estimate_tokens, finalizeSplit]
  norm_num
  decide

/-- Witness for `C7_amended` at a concrete non-default configuration. -/
theorem C7_witness :
    split_project_into_chunks ⟨2, 100, 3, 2, 3, 5⟩ [⟨none, none, none⟩] =
      [⟨"chunk_0", [⟨none, none, none⟩], 1000, 20⟩] :=
  C7_amended ⟨2, 100, 3, 2, 3, 5⟩ ⟨none, none, none⟩ rfl rfl rfl

/-! ## Claim C2: partition preserves the input multiset -/

/-- The files of all chunks of the final split state, in emission order,
are the already-emitted chunks' files followed by the current chunk and
the not-yet-consumed input. -/
theorem splitStep_flatten (cfg : ChunkConfig) :
    ∀ (l : List FileInfo) (s : SplitState),
      (finalizeSplit (l.foldl (splitStep cfg) s)).flatMap ProcessingChunk.files =
        s.chunks.flatMap ProcessingChunk.files ++ s.current_chunk ++ l := by
  intro l
  induction l with
  | nil =>
      intro s
      by_cases h : s.current_chunk = [] <;>
        simp [finalizeSplit, h, mkChunk]
  | cons f rest ih =>
      intro s
      rw [List.foldl_cons, ih]
      by_cases h1 : cfg.max_files_per_chunk ≤ s.current_chunk.length ∨
          cfg.max_tokens_per_chunk < s.current_tokens + estimate_tokens f
      · by_cases h2 : s.current_chunk = []
        · simp only [splitStep, h1, h2]
          split <;> simp [h2]
        · simp [splitStep, h1, h2, mkChunk]
      · simp [splitStep, h1]

/-- Claim C2: the multiset of items across all chunks returned by
`split_project_into_chunks` is exactly the input multiset (stated as a
list permutation), and the empty input yields the empty chunk list. -/
theorem C2_theorem (cfg : ChunkConfig) (project_files : List FileInfo) :
    ((split_project_into_chunks cfg project_files).flatMap ProcessingChunk.files).Perm
      project_files ∧
    split_project_into_chunks cfg [] = [] := by
  constructor
  · unfold split_project_into_chunks
    refine ((List.perm_insertionSort chunkPriorityGe _).flatMap_right _).trans ?_
    rw [splitStep_flatten]
    simpa using List.perm_insertionSort filePriorityGe project_files
  · rfl

/-! ## Claim C3: per-chunk size and cost bounds -/

/-- The bounds maintained for every emitted chunk: non-empty, at most
`max_files_per_chunk` files, token total equal to the sum of its files'
estimates, and within the token budget unless it is a singleton. -/
def chunkOk (cfg : ChunkConfig) (c : ProcessingChunk) : Prop :=
  c.files ≠ [] ∧
  c.files.length ≤ cfg.max_files_per_chunk ∧
  c.estimated_tokens = (c.files.map estimate_tokens).sum ∧
  (1 < c.files.length → c.estimated_tokens ≤ cfg.max_tokens_per_chunk)

/-- The loop invariant of `split_project_into_chunks`: all emitted
chunks satisfy `chunkOk` and the current chunk satisfies the same bounds
before being emitted. -/
def stateOk (cfg : ChunkConfig) (s : SplitState) : Prop :=
  (∀ c ∈ s.chunks, chunkOk cfg c) ∧
  s.current_tokens = (s.current_chunk.map estimate_tokens).sum ∧
  s.current_chunk.length ≤ cfg.max_files_per_chunk ∧
  (1 < s.current_chunk.length → s.current_tokens ≤ cfg.max_tokens_per_chunk)

/-- One split step preserves the loop invariant, provided the file limit
is at least 1. -/
theorem splitStep_stateOk (cfg : ChunkConfig) (hmax : 1 ≤ cfg.max_files_per_chunk)
    (s : SplitState) (f : FileInfo) (h : stateOk cfg s) :
    stateOk cfg (splitStep cfg s f) := by
  obtain ⟨hchunks, htok, hlen, hbud⟩ := h
  by_cases h1 : cfg.max_files_per_chunk ≤ s.current_chunk.length ∨
      cfg.max_tokens_per_chunk < s.current_tokens + estimate_tokens f
  · by_cases h2 : s.current_chunk = []
    · have htok0 : s.current_tokens = 0 := by simp [htok, h2]
      have hstep : splitStep cfg s f =
          { s with current_chunk := [f], current_tokens := estimate_tokens f } := by
        simp [splitStep, h2, htok0]
      rw [hstep]
      exact ⟨hchunks, by simp, hmax, by simp⟩
    · have hstep : splitStep cfg s f =
          { chunks := s.chunks ++ [mkChunk s.chunk_id s.current_chunk s.current_tokens]
            current_chunk := [f]
            current_tokens := estimate_tokens f
            chunk_id := s.chunk_id + 1 } := by
        simp [splitStep, h1, h2]
      rw [hstep]
      refine ⟨?_, by simp, hmax, by simp⟩
      intro c hc
      rcases List.mem_append.mp hc with hc | hc
      · exact hchunks c hc
      · rw [List.mem_singleton.mp hc]
        exact ⟨h2, hlen, htok, hbud⟩
  · have hstep : splitStep cfg s f =
        { s with
            current_chunk := s.current_chunk ++ [f]
            current_tokens := s.current_tokens + estimate_tokens f } := by
      simp only [splitStep, if_neg h1]
    push_neg at h1
    rw [hstep]
    refine ⟨hchunks, by simp [htok], ?_, fun _ => h1.2⟩
    simpa using h1.1

/-- The final flush emits only chunks satisfying the bounds. -/
theorem finalizeSplit_chunkOk (cfg : ChunkConfig) (s : SplitState) (h : stateOk cfg s) :
    ∀ c ∈ finalizeSplit s, chunkOk cfg c := by
  obtain ⟨hchunks, htok, hlen, hbud⟩ := h
  intro c hc
  unfold finalizeSplit at hc
  by_cases h2 : s.current_chunk = []
  · rw [if_pos h2] at hc
    exact hchunks c hc
  · rw [if_neg h2] at hc
    rcases List.mem_append.mp hc with hc | hc
    · exact hchunks c hc
    · rw [List.mem_singleton.mp hc]
      exact ⟨h2, hlen, htok, hbud⟩

/-- The loop of `split_project_into_chunks` preserves the invariant. -/
theorem foldl_stateOk (cfg : ChunkConfig) (hmax : 1 ≤ cfg.max_files_per_chunk) :
    ∀ (l : List FileInfo) (s : SplitState), stateOk cfg s →
      stateOk cfg (l.foldl (splitStep cfg) s) := by
  intro l
  induction l with
  | nil => exact fun s h => h
  | cons f rest ih => exact fun s h => ih _ (splitStep_stateOk cfg hmax s f h)

/-- Claim C3 amended: whenever `max_files_per_chunk ≥ 1`, every chunk
respects the file-count bound, every multi-file chunk respects the token
budget, and a chunk over the token budget is a singleton whose token
total is its sole file's own estimate.  (As stated the claim fails for
`max_files_per_chunk = 0`, where every produced chunk still holds one
file.) -/
theorem C3_amended (cfg : ChunkConfig) (project_files : List FileInfo)
    (hmax : 1 ≤ cfg.max_files_per_chunk) :
    ∀ c ∈ split_project_into_chunks cfg project_files,
      c.files.length ≤ cfg.max_files_per_chunk ∧
      (1 < c.files.length → c.estimated_tokens ≤ cfg.max_tokens_per_chunk) ∧
      (cfg.max_tokens_per_chunk < c.estimated_tokens →
        ∃ f, c.files = [f] ∧ c.estimated_tokens = estimate_tokens f) := by
  intro c hc
  simp only [split_project_into_chunks, List.mem_insertionSort] at hc
  have hinit : stateOk cfg ⟨[], [], 0, 0⟩ := by
    refine ⟨by simp, by simp, by simp, by simp⟩
  obtain ⟨hne, hlen, hsum, hbud⟩ :=
    finalizeSplit_chunkOk cfg _ (foldl_stateOk cfg hmax _ _ hinit) c hc
  refine ⟨hlen, hbud, fun hover => ?_⟩
  match hfiles : c.files with
  | [] => exact absurd hfiles hne
  | [f] =>
      refine ⟨f, rfl, ?_⟩
      rw [hsum, hfiles]
      simp
  | f1 :: f2 :: rest =>
      exact absurd (hbud (by rw [hfiles]; simp)) (not_le.mpr hover)

/-- Claim C3 counterexample: with `max_files_per_chunk = 0` the
file-count bound fails — a single work item still yields a chunk holding
one file, and `1 ≤ 0` is false. -/
theorem C3_counterexample :
    (split_project_into_chunks ⟨0, 50000, 3, 2, 3, 5⟩ [⟨none, none, none⟩]).map
        (fun c => c.files.length) = [1] ∧
    ¬ (1 : Nat) ≤ (⟨0, 50000, 3, 2, 3, 5⟩ : ChunkConfig).max_files_per_chunk := by
  decide

/-- A sample HTML work item used by concrete witnesses. -/
def sampleHtml : FileInfo := ⟨some "a.html", none, some "abcdefgh"⟩

/-- Witness for `C3_amended` at a concrete input. -/
theorem C3_witness :
    (mkChunk 0 [sampleHtml] 2).files.length ≤ defaultChunkConfig.max_files_per_chunk := by
  have h := C3_amended defaultChunkConfig [sampleHtml] (by decide)
  exact (h _ (by decide)).1

/-! ## Claim C1: run completeness of `process_chunks_parallel` -/

/-- The classifying loop of `process_chunks_parallel` appends to the
success and failure lists exactly the success-flagged and
failure-flagged results, in order. -/
theorem classify_eq_filter :
    ∀ (rs : List ChunkResult) (s f : List ChunkResult),
      rs.foldl classifyStep (s, f) =
        (s ++ rs.filter (fun r => r.success), f ++ rs.filter (fun r => !r.success)) := by
  intro rs
  induction rs with
  | nil => intro s f; simp
  | cons r rest ih =>
      intro s f
      by_cases h : r.success <;>
        simp [classifyStep, h, ih, List.append_assoc]

/-- Splitting a list by a predicate and reassembling is a permutation of
the list. -/
theorem filter_not_filter_perm {α : Type} (p : α → Bool) :
    ∀ l : List α, (l.filter p ++ l.filter (fun a => !p a)).Perm l := by
  intro l
  induction l with
  | nil => simp
  | cons a rest ih =>
      by_cases h : p a
      · simpa [h] using ih.cons a
      · simp only [List.filter_cons, h, Bool.not_false, cond_false, if_neg, Bool.false_eq_true,
          not_false_eq_true, ite_true, ite_false]
        exact List.perm_middle.trans (ih.cons a)

/-- Claim C1: for every chunk list and every per-attempt callback
behaviour (raising or returning failure values alike), the run returns
normally with `len(successful) + len(failed)` equal to the number of
chunks, and the classified results are exactly the per-chunk retry
results, one per chunk. -/
theorem C1_theorem (cfg : ChunkConfig) (chunks : List ProcessingChunk)
    (proc : ProcessingChunk → Nat → Except String RawResult) :
    (process_chunks_parallel cfg chunks proc).successful_chunks.length +
      (process_chunks_parallel cfg chunks proc).failed_chunks.length = chunks.length ∧
    (process_chunks_parallel cfg chunks proc).total_chunks = chunks.length ∧
    ((process_chunks_parallel cfg chunks proc).successful_chunks ++
        (process_chunks_parallel cfg chunks proc).failed_chunks).Perm
      (chunks.map (fun c => (retryRun cfg c (proc c)).result)) := by
  have hperm :
      ((process_chunks_parallel cfg chunks proc).successful_chunks ++
        (process_chunks_parallel cfg chunks proc).failed_chunks).Perm
      (chunks.map (fun c => (retryRun cfg c (proc c)).result)) := by
    simp only [process_chunks_parallel, classify_eq_filter, List.nil_append]
    exact filter_not_filter_perm _ _
  exact ⟨by simpa using hperm.length_eq, rfl, hperm⟩

/-! ## Claim C5: retry behaviour for always-failing callbacks -/

/-- For a callback that raises on every attempt, the retry loop entered
with `fuel` indices left (and at least one) invokes the callback once
per remaining index, records a failure stamped with the full
`retry_attempts` count, and sleeps `retry_delay * (k + 1)` between
consecutive attempts. -/
theorem retryGo_allFail (cfg : ChunkConfig) (chunk : ProcessingChunk)
    (proc : Nat → Except String RawResult)
    (hfail : ∀ k, ∃ e, proc k = Except.error e) :
    ∀ (fuel attempt : Nat), attempt + fuel = cfg.retry_attempts → 0 < fuel →
      (retryGo cfg chunk proc attempt fuel).invocations = fuel ∧
      (retryGo cfg chunk proc attempt fuel).result.success = false ∧
      (retryGo cfg chunk proc attempt fuel).result.chunk_id = chunk.chunk_id ∧
      (retryGo cfg chunk proc attempt fuel).result.attempt = cfg.retry_attempts ∧
      (retryGo cfg chunk proc attempt fuel).sleeps =
        (List.range (fuel - 1)).map
          (fun k : Nat => cfg.retry_delay * ((attempt : ℚ) + (k : ℚ) + 1)) := by
  intro fuel
  induction fuel with
  | zero => intro attempt _ h0; exact absurd h0 (by simp)
  | succ d ih =>
      intro attempt htotal _
      obtain ⟨e, he⟩ := hfail attempt
      by_cases hlast : attempt < cfg.retry_attempts - 1
      · have hd : 0 < d := by omega
        obtain ⟨hinv, hsucc, hid, hatt, hsleeps⟩ := ih (attempt + 1) (by omega) hd
        have hstep :
            retryGo cfg chunk proc attempt (d + 1) =
              { result := (retryGo cfg chunk proc (attempt + 1) d).result
                invocations := (retryGo cfg chunk proc (attempt + 1) d).invocations + 1
                sleeps := cfg.retry_delay * (attempt + 1) ::
                  (retryGo cfg chunk proc (attempt + 1) d).sleeps } := by
          simp [retryGo, he, hlast]
        rw [hstep]
        refine ⟨by rw [hinv], hsucc, hid, hatt, ?_⟩
        rw [hsleeps]
        have hrange : d + 1 - 1 = (d - 1) + 1 := by omega
        rw [hrange, List.range_succ_eq_map]
        simp only [List.map_cons, List.map_map]
        congr 1
        · push_cast
          ring
        · apply List.map_congr_left
          intro k _
          simp only [Function.comp_apply]
          push_cast
          ring
      · have hstep :
            retryGo cfg chunk proc attempt (d + 1) =
              { result := ⟨chunk.chunk_id, false, some e, attempt + 1⟩
                invocations := 1
                sleeps := [] } := by
          simp [retryGo, he, hlast]
        have hd0 : d = 0 := by omega
        have hatt : attempt + 1 = cfg.retry_attempts := by omega
        subst hd0
        rw [hstep]
        exact ⟨rfl, rfl, rfl, hatt, by simp⟩

/-- Claim C5 amended: a callback that fails by *raising* on every
attempt is invoked exactly `retry_attempts` times, with backoff sleeps
`retry_delay * attempt_number` between consecutive attempts, and the
chunk is recorded as failed with the final attempt count; but a callback
that fails by *returning* a failure value is invoked exactly once — its
returned dictionary is passed through (and later lands in
`failed_chunks`) without any retry. -/
theorem C5_amended (cfg : ChunkConfig) (chunk : ProcessingChunk) :
    (∀ proc : Nat → Except String RawResult,
      (∀ k, ∃ e, proc k = Except.error e) →
        (retryRun cfg chunk proc).invocations = cfg.retry_attempts ∧
        (retryRun cfg chunk proc).result.success = false ∧
        (retryRun cfg chunk proc).result.attempt = cfg.retry_attempts ∧
        (retryRun cfg chunk proc).sleeps =
          (List.range (cfg.retry_attempts - 1)).map
            (fun k : Nat => cfg.retry_delay * ((k : ℚ) + 1))) ∧
    (∀ (proc : Nat → Except String RawResult) (raw : RawResult),
      1 ≤ cfg.retry_attempts → proc 0 = Except.ok raw →
        (retryRun cfg chunk proc).invocations = 1 ∧
        (retryRun cfg chunk proc).result = ⟨chunk.chunk_id, raw.success, raw.error, 1⟩) := by
  constructor
  · intro proc hfail
    rcases Nat.eq_zero_or_pos cfg.retry_attempts with h0 | hpos
    · unfold retryRun
      rw [h0]
      simp [retryGo, h0]
    · obtain ⟨hinv, hsucc, _, hatt, hsleeps⟩ :=
        retryGo_allFail cfg chunk proc hfail cfg.retry_attempts 0 (by omega) hpos
      refine ⟨hinv, hsucc, hatt, ?_⟩
      unfold retryRun
      rw [hsleeps]
      apply List.map_congr_left
      intro k _
      norm_num
  · intro proc raw hpos hok
    unfold retryRun
    obtain ⟨m, hm⟩ : ∃ m, cfg.retry_attempts = m + 1 :=
      ⟨cfg.retry_attempts - 1, by omega⟩
    rw [hm]
    simp [retryGo, hok]

/-- A sample chunk used by concrete scheduler witnesses. -/
def demoChunk : ProcessingChunk := ⟨"chunk_0", [], 0, 0⟩

/-- Witness for `C5_amended`: with the default configuration, an
always-raising callback is invoked 3 times and an error-returning
callback once. -/
theorem C5_witness :
    (retryRun defaultChunkConfig demoChunk (fun _ => Except.error "boom")).invocations = 3 ∧
    (retryRun defaultChunkConfig demoChunk
      (fun _ => Except.ok ⟨false, some "bad"⟩)).invocations = 1 := by
  constructor
  · exact ((C5_amended defaultChunkConfig demoChunk).1
      (fun _ => Except.error "boom") (fun _ => ⟨"boom", rfl⟩)).1
  · exact ((C5_amended defaultChunkConfig demoChunk).2
      (fun _ => Except.ok ⟨false, some "bad"⟩) ⟨false, some "bad"⟩ (by decide) rfl).1

/-- Claim C5 counterexample: a callback that always *returns* a failure
dictionary (without raising) is invoked exactly once under the default
configuration (`retry_attempts = 3`), not `retry_attempts` times, and
the chunk still ends up in `failed_chunks`. -/
theorem C5_counterexample :
    (retryRun defaultChunkConfig demoChunk
      (fun _ => Except.ok ⟨false, some "processing failed"⟩)).invocations = 1 ∧
    defaultChunkConfig.retry_attempts = 3 ∧
    (process_chunks_parallel defaultChunkConfig [demoChunk]
      (fun _ _ => Except.ok ⟨false, some "processing failed"⟩)).failed_chunks.length = 1 ∧
    (1 : Nat) ≠ 3 := by
  decide

/-! ## Claims C6 and C8: merging chunk results -/

/-- The number of entries a successful chunk result adds to
`summary.total_files`: `len(chunk_result.get('file_analyses', {}))`
(0 for skipped chunks). -/
def chunkTotalContribution (cr : PyDict PVal) : Nat :=
  if successTruthy cr then
    match dictGetD cr "file_analyses" (.pdict []) with
    | .pdict d => d.length
    | _ => 0
  else 0

/-- The number of entries a successful chunk result adds to
`summary.successful_files`: its analyses whose `status` is
`'success'`. -/
def chunkSuccessContribution (cr : PyDict PVal) : Nat :=
  if successTruthy cr then
    match dictGetD cr "file_analyses" (.pdict []) with
    | .pdict d => ((d.map (fun kv => kv.2)).filter statusSuccess).length
    | _ => 0
  else 0

/-- Well-formedness of one chunk result for the merge: if it is
successful, its `file_analyses` is a dictionary of dictionaries, its
`patterns` a list of dictionaries, and its `dependencies` a dictionary
of lists (all defaulted when missing).  Skipped (unsuccessful) chunk
results are unconstrained. -/
def WFChunkResult (cr : PyDict PVal) : Prop :=
  successTruthy cr = true →
    (∃ d, dictGetD cr "file_analyses" (.pdict []) = .pdict d ∧
      ∀ kv ∈ d, ∃ a, kv.2 = PVal.pdict a) ∧
    (∃ l, dictGetD cr "patterns" (.plist []) = .plist l ∧
      ∀ p ∈ l, ∃ pd, p = PVal.pdict pd) ∧
    (∃ dd, dictGetD cr "dependencies" (.pdict []) = .pdict dd ∧
      ∀ kv ∈ dd, ∃ items, kv.2 = PVal.plist items)

/-- Reduction of `Except` bind on a success value. -/
@[simp] theorem except_ok_bind {α β : Type} (a : α) (f : α → Except String β) :
    (Except.ok a >>= f) = f a := rfl

/-- Reduction of `Except` bind on an error value. -/
@[simp] theorem except_error_bind {α β : Type} (e : String) (f : α → Except String β) :
    ((Except.error e : Except String α) >>= f) = Except.error e := rfl

/-- `pure` in the `Except` monad is `Except.ok`. -/
@[simp] theorem except_pure_eq {α : Type} (a : α) :
    (pure a : Except String α) = Except.ok a := rfl

/-- The success-counting list comprehension returns the number of
analyses with `status == 'success'`, provided every analysis value is a
dictionary. -/
theorem countLoop_ok :
    ∀ (vals : List PVal), (∀ a ∈ vals, ∃ ad, a = PVal.pdict ad) → ∀ k : Nat,
      vals.foldlM
        (fun (k : Nat) a => do
          let b ← analysisIsSuccess a
          pure (if b then k + 1 else k)) k =
      Except.ok (k + (vals.filter statusSuccess).length) := by
  intro vals
  induction vals with
  | nil => intro _ k; simp
  | cons a rest ih =>
      intro h k
      obtain ⟨ad, rfl⟩ := h a (by simp)
      have hrest := fun a ha => h a (List.mem_cons_of_mem _ ha)
      rw [List.foldlM_cons]
      have hf : (do
          let b ← analysisIsSuccess (PVal.pdict ad)
          pure (if b then k + 1 else k) : Except String Nat) =
          Except.ok (if statusSuccess (PVal.pdict ad) then k + 1 else k) := rfl
      rw [hf, except_ok_bind]
      by_cases hs : statusSuccess (PVal.pdict ad)
      · rw [if_pos hs, ih hrest (k + 1)]
        simp only [List.filter_cons, hs, ite_true, List.length_cons, Except.ok.injEq]
        omega
      · rw [if_neg hs, ih hrest k]
        simp [List.filter_cons, hs]

/-- The dependency-merging inner loop succeeds when every dependency
value is a list. -/
theorem depsLoop_ok :
    ∀ (dd : PyDict PVal) (m : PyDict (List PVal)),
      (∀ kv ∈ dd, ∃ items, kv.2 = PVal.plist items) →
      ∃ out,
        dd.foldlM
          (fun (m : PyDict (List PVal)) kv => do
            let cur := dictGetD m kv.1 []
            let items ← pyIter kv.2
            pure (dictSet m kv.1 (cur ++ items)))
          m = Except.ok out := by
  intro dd
  induction dd with
  | nil => intro m _; exact ⟨m, rfl⟩
  | cons kv rest ih =>
      intro m h
      obtain ⟨items, hit⟩ := h kv (by simp)
      have hrest := fun kv2 hkv2 => h kv2 (List.mem_cons_of_mem _ hkv2)
      rw [List.foldlM_cons]
      have hf : (do
          let cur := dictGetD m kv.1 []
          let items ← pyIter kv.2
          pure (dictSet m kv.1 (cur ++ items)) : Except String (PyDict (List PVal))) =
          Except.ok (dictSet m kv.1 (dictGetD m kv.1 [] ++ items)) := by
        rw [hit]
        rfl
      rw [hf, except_ok_bind]
      exact ih _ hrest

/-- The deduplication loop succeeds when every pattern is a
dictionary. -/
theorem dedupLoop_ok :
    ∀ (pats : List PVal) (acc : List String × List PVal),
      (∀ p ∈ pats, ∃ pd, p = PVal.pdict pd) →
      ∃ out, pats.foldlM dedupStep acc = Except.ok out := by
  intro pats
  induction pats with
  | nil => intro acc _; exact ⟨acc, rfl⟩
  | cons p rest ih =>
      intro acc h
      obtain ⟨pd, rfl⟩ := h p (by simp)
      have hrest := fun q hq => h q (List.mem_cons_of_mem _ hq)
      rw [List.foldlM_cons]
      by_cases hc : acc.1.contains
          (pyStr (dictGetD pd "name" (.pstr "")) ++ ":" ++ pyStr (dictGetD pd "type" (.pstr "")))
      · have hf : dedupStep acc (PVal.pdict pd) = Except.ok acc := by
          simp only [dedupStep]
          rw [if_pos hc]
        rw [hf, except_ok_bind]
        exact ih _ hrest
      · have hf : dedupStep acc (PVal.pdict pd) =
            Except.ok
              (acc.1 ++ [pyStr (dictGetD pd "name" (.pstr "")) ++ ":" ++
                  pyStr (dictGetD pd "type" (.pstr ""))],
               acc.2 ++ [PVal.pdict pd]) := by
          simp only [dedupStep]
          rw [if_neg hc]
        rw [hf, except_ok_bind]
        exact ih _ hrest

/-- `_deduplicate_patterns` succeeds on any list of dictionary
patterns. -/
theorem deduplicate_patterns_ok (pats : List PVal)
    (h : ∀ p ∈ pats, ∃ pd, p = PVal.pdict pd) :
    ∃ out, deduplicate_patterns pats = Except.ok out := by
  obtain ⟨out, hout⟩ := dedupLoop_ok pats ([], []) h
  exact ⟨out.2, by rw [deduplicate_patterns, hout]; rfl⟩

/-- One merging-loop iteration on a well-formed chunk result succeeds,
adds exactly the chunk's own analysis counts to the summary totals, and
only appends dictionary patterns. -/
theorem mergeChunkStep_ok (acc : MergeAcc) (cr : PyDict PVal) (hwf : WFChunkResult cr) :
    ∃ acc', mergeChunkStep acc cr = Except.ok acc' ∧
      acc'.total_files = acc.total_files + chunkTotalContribution cr ∧
      acc'.successful_files = acc.successful_files + chunkSuccessContribution cr ∧
      (∀ p ∈ acc'.patterns, p ∈ acc.patterns ∨ ∃ pd, p = PVal.pdict pd) := by
  by_cases hsucc : successTruthy cr
  · obtain ⟨⟨d, hd, hdvals⟩, ⟨l, hl, hlp⟩, ⟨dd, hdd, hddl⟩⟩ := hwf hsucc
    obtain ⟨deps_out, hdeps0⟩ := depsLoop_ok dd acc.dependencies hddl
    have hdeps : mergeDeps acc.dependencies (PVal.pdict dd) = Except.ok deps_out := by
      simp only [mergeDeps]
      exact hdeps0
    have hvals : ∀ a ∈ d.map (fun kv => kv.2), ∃ ad, a = PVal.pdict ad := by
      intro a ha
      obtain ⟨kv, hkv, rfl⟩ := List.mem_map.mp ha
      exact hdvals kv hkv
    have hcount := countLoop_ok (d.map (fun kv => kv.2)) hvals 0
    have hstep : mergeChunkStep acc cr = Except.ok
        { file_analyses := d.foldl (fun acc2 kv => dictSet acc2 kv.1 kv.2) acc.file_analyses
          patterns := acc.patterns ++ l
          dependencies := deps_out
          total_files := acc.total_files + d.length
          successful_files :=
            acc.successful_files + ((d.map (fun kv => kv.2)).filter statusSuccess).length } := by
      rw [mergeChunkStep]
      rw [if_neg (by simp [hsucc])]
      rw [hd, hl, hdd]
      simp only [dictUpdateVal, pyIter, pyLen, pyValues, except_ok_bind]
      rw [hdeps]
      simp only [except_ok_bind]
      rw [hcount]
      simp only [except_ok_bind, except_pure_eq, Nat.zero_add]
    refine ⟨_, hstep, ?_, ?_, ?_⟩
    · simp [chunkTotalContribution, hsucc, hd]
    · simp [chunkSuccessContribution, hsucc, hd]
    · intro p hp
      rcases List.mem_append.mp hp with hp | hp
      · exact Or.inl hp
      · exact Or.inr (hlp p hp)
  · refine ⟨acc, ?_, ?_, ?_, fun p hp => Or.inl hp⟩
    · rw [mergeChunkStep]
      rw [if_pos (by simp [hsucc])]
      rfl
    · simp [chunkTotalContribution, hsucc]
    · simp [chunkSuccessContribution, hsucc]

/-- The merging loop over well-formed chunk results succeeds and sums
the per-chunk analysis counts into the summary totals. -/
theorem mergeFold_ok :
    ∀ (crs : List (PyDict PVal)) (acc : MergeAcc),
      (∀ cr ∈ crs, WFChunkResult cr) →
      ∃ acc', crs.foldlM mergeChunkStep acc = Except.ok acc' ∧
        acc'.total_files = acc.total_files + (crs.map chunkTotalContribution).sum ∧
        acc'.successful_files =
          acc.successful_files + (crs.map chunkSuccessContribution).sum ∧
        (∀ p ∈ acc'.patterns, p ∈ acc.patterns ∨ ∃ pd, p = PVal.pdict pd) := by
  intro crs
  induction crs with
  | nil =>
      intro acc _
      exact ⟨acc, rfl, by simp, by simp, fun p hp => Or.inl hp⟩
  | cons cr rest ih =>
      intro acc h
      obtain ⟨acc1, hstep, ht1, hs1, hp1⟩ := mergeChunkStep_ok acc cr (h cr (by simp))
      obtain ⟨acc2, hfold, ht2, hs2, hp2⟩ :=
        ih acc1 (fun cr2 hcr2 => h cr2 (List.mem_cons_of_mem _ hcr2))
      refine ⟨acc2, ?_, ?_, ?_, ?_⟩
      · rw [List.foldlM_cons, hstep, except_ok_bind, hfold]
      · rw [ht2, ht1]
        simp [Nat.add_assoc]
      · rw [hs2, hs1]
        simp [Nat.add_assoc]
      · intro p hp
        rcases hp2 p hp with hp | hp
        · exact hp1 p hp
        · exact Or.inr hp

/-- Claim C6 amended: on well-formed chunk results the merge succeeds,
but the summary counts are *summed from the per-chunk payload sizes*
(`total_files` is the sum of `len(file_analyses)` over successful
chunks, `successful_files` the sum of their success-status counts, and
`failed_files` their difference), not recomputed from the merged map —
so a key appearing in several chunks' payloads is counted once per
chunk. -/
theorem C6_amended (crs : List (PyDict PVal)) (hwf : ∀ cr ∈ crs, WFChunkResult cr) :
    ∃ m, merge_chunk_results crs = Except.ok m ∧
      m.summary.total_files = (crs.map chunkTotalContribution).sum ∧
      m.summary.successful_files = (crs.map chunkSuccessContribution).sum ∧
      m.summary.failed_files = m.summary.total_files - m.summary.successful_files ∧
      m.summary.total_chunks = crs.length := by
  obtain ⟨acc, hfold, ht, hs, hp⟩ := mergeFold_ok crs ⟨[], [], [], 0, 0⟩ hwf
  obtain ⟨pats, hpats⟩ :=
    deduplicate_patterns_ok acc.patterns
      (fun p hpp => (hp p hpp).resolve_left (by simp))
  have hmerge : merge_chunk_results crs = Except.ok
      { status := "success"
        file_analyses := acc.file_analyses
        patterns := pats
        dependencies := acc.dependencies
        summary := { total_files := acc.total_files
                     successful_files := acc.successful_files
                     failed_files := acc.total_files - acc.successful_files
                     total_chunks := crs.length } } := by
    rw [merge_chunk_results, hfold, except_ok_bind, hpats, except_ok_bind]
    rfl
  exact ⟨_, hmerge, by simpa using ht, by simpa using hs, rfl, rfl⟩

/-- Claim C8 amended: the merge never aborts on *well-formed* chunk
results (missing keys are tolerated via `dict.get` defaults, and
unsuccessful chunk results are skipped wholesale), but there is no
skip-and-continue handling for malformed payloads: a present field of
the wrong shape raises out of `merge_chunk_results` and aborts the whole
merge (see the counterexample). -/
theorem C8_amended (crs : List (PyDict PVal)) (hwf : ∀ cr ∈ crs, WFChunkResult cr) :
    ∃ m, merge_chunk_results crs = Except.ok m := by
  obtain ⟨acc, hfold, _, _, hp⟩ := mergeFold_ok crs ⟨[], [], [], 0, 0⟩ hwf
  obtain ⟨pats, hpats⟩ :=
    deduplicate_patterns_ok acc.patterns
      (fun p hpp => (hp p hpp).resolve_left (by simp))
  exact ⟨_, by rw [merge_chunk_results, hfold, except_ok_bind, hpats, except_ok_bind]; rfl⟩

/-- A successful chunk result reporting one analysis under the key
`"a"` with success status. -/
def crDupA : PyDict PVal :=
  [("success", .pbool true),
   ("file_analyses", .pdict [("a", .pdict [("status", .pstr "success")])])]

/-- A second successful chunk result reporting an analysis under the
same key `"a"`. -/
def crDupB : PyDict PVal :=
  [("success", .pbool true),
   ("file_analyses", .pdict [("a", .pdict [("status", .pstr "error")])])]

/-- Claim C6 counterexample: merging two successful chunks whose
payloads share the key `"a"` yields a merged `file_analyses` map with 1
key but `summary.total_files = 2` — the count is summed per chunk, not
recomputed from the merged map, so the shared key is double-counted. -/
theorem C6_counterexample :
    (okValue (merge_chunk_results [crDupA, crDupB])).map
        (fun m => (m.summary.total_files, m.file_analyses.length)) = some (2, 1) ∧
    (2 : Nat) ≠ 1 := by
  constructor
  · rfl
  · decide

/-- A well-formed successful chunk result with one analysis, one
pattern and one dependency list, used as a concrete `C6_amended`
input. -/
def crWit6 : PyDict PVal :=
  [("success", .pbool true),
   ("file_analyses", .pdict [("w", .pdict [("status", .pstr "success")])]),
   ("patterns", .plist [.pdict [("name", .pstr "P"), ("type", .pstr "T")]]),
   ("dependencies", .pdict [("imports", .plist [.pstr "x"])])]

/-- `crWit6` is well-formed for the merge. -/
theorem crWit6_wf : WFChunkResult crWit6 := by
  intro _
  refine ⟨⟨_, rfl, ?_⟩, ⟨_, rfl, ?_⟩, ⟨_, rfl, ?_⟩⟩
  · intro kv hkv
    rw [List.mem_singleton] at hkv
    subst hkv
    exact ⟨_, rfl⟩
  · intro p hp
    rw [List.mem_singleton] at hp
    subst hp
    exact ⟨_, rfl⟩
  · intro kv hkv
    rw [List.mem_singleton] at hkv
    subst hkv
    exact ⟨_, rfl⟩

/-- Witness for `C6_amended` at the concrete input `[crWit6]`. -/
theorem C6_witness :
    (okValue (merge_chunk_results [crWit6])).map
      (fun m => (m.summary.total_files, m.summary.successful_files,
        m.summary.failed_files, m.summary.total_chunks)) = some (1, 1, 0, 1) := by
  obtain ⟨m, hm, h1, h2, h3, h4⟩ :=
    C6_amended [crWit6] (fun cr hcr => by rw [List.mem_singleton] at hcr; subst hcr; exact crWit6_wf)
  have e1 : (List.map chunkTotalContribution [crWit6]).sum = 1 := by decide
  have e2 : (List.map chunkSuccessContribution [crWit6]).sum = 1 := by decide
  rw [hm]
  show some (m.summary.total_files, m.summary.successful_files,
    m.summary.failed_files, m.summary.total_chunks) = some (1, 1, 0, 1)
  rw [h3, h1, h2, e1, e2, h4]
  rfl

/-- A plain well-formed successful chunk result. -/
def crPlain : PyDict PVal :=
  [("success", .pbool true),
   ("file_analyses", .pdict [("b", .pdict [("status", .pstr "success")])])]

/-- A successful chunk result whose `file_analyses` field is present
but malformed (an integer instead of a map). -/
def crBadFa : PyDict PVal :=
  [("success", .pbool true), ("file_analyses", .pint 3)]

/-- Claim C8 counterexample: one malformed payload aborts the whole
merge with a `TypeError` instead of being skipped — the well-formed
chunk `crPlain` merges fine alone, but merging it together with
`crBadFa` returns the error, losing the other chunk's contribution. -/
theorem C8_counterexample :
    errorText (merge_chunk_results [crPlain, crBadFa]) =
      some "TypeError: argument of dict.update is not a mapping" ∧
    errorText (merge_chunk_results [crPlain]) = none := by
  constructor
  · rfl
  · rfl

/-- A well-formed chunk result with empty collections, used as a
concrete `C8_amended` input. -/
def crWit8 : PyDict PVal :=
  [("success", .pbool true),
   ("file_analyses", .pdict []),
   ("patterns", .plist []),
   ("dependencies", .pdict [])]

/-- `crWit8` is well-formed for the merge. -/
theorem crWit8_wf : WFChunkResult crWit8 := by
  intro _
  refine ⟨⟨_, rfl, ?_⟩, ⟨_, rfl, ?_⟩, ⟨_, rfl, ?_⟩⟩ <;> simp

/-- Witness for `C8_amended` at the concrete input `[crWit8]`. -/
theorem C8_witness : errorText (merge_chunk_results [crWit8]) = none := by
  obtain ⟨m, hm⟩ :=
    C8_amended [crWit8] (fun cr hcr => by rw [List.mem_singleton] at hcr; subst hcr; exact crWit8_wf)
  rw [hm]
  rfl

/-! ## Claim C10: file split/merge round trip -/

/-- Splitting on newlines always yields at least one (possibly empty)
line, as Python's `str.split` does. -/
theorem splitOnNl_ne_nil : ∀ s : List Char, splitOnNl s ≠ [] := by
  intro s
  cases s with
  | nil => simp [splitOnNl]
  | cons c rest =>
      by_cases h : c = '\n'
      · simp [splitOnNl, h]
      · simp only [splitOnNl, if_neg h]
        cases hrec : splitOnNl rest <;> simp

/-- `'\n'.join` on the three-way cons. -/
theorem joinNl_cons_cons (l x : List Char) (xs : List (List Char)) :
    joinNl (l :: x :: xs) = l ++ '\n' :: joinNl (x :: xs) := rfl

/-- `'\n'.join` distributes over list concatenation with an interposed
newline, provided both halves are non-empty. -/
theorem joinNl_append :
    ∀ (a b : List (List Char)), a ≠ [] → b ≠ [] →
      joinNl (a ++ b) = joinNl a ++ '\n' :: joinNl b := by
  intro a
  induction a with
  | nil => intro b h _; exact absurd rfl h
  | cons x rest ih =>
      intro b _ hb
      cases rest with
      | nil =>
          cases b with
          | nil => exact absurd rfl hb
          | cons y ys => simp [joinNl_cons_cons, joinNl]
      | cons z zs =>
          have hih := ih b (by simp) hb
          rw [List.cons_append, List.cons_append, joinNl_cons_cons x z (zs ++ b),
            joinNl_cons_cons x z zs, ← List.cons_append, hih]
          simp

/-- Joining the newline-split of a character list restores it:
`'\n'.join(s.split('\n')) == s`. -/
theorem joinNl_splitOnNl : ∀ s : List Char, joinNl (splitOnNl s) = s := by
  intro s
  induction s with
  | nil => rfl
  | cons c rest ih =>
      have hne := splitOnNl_ne_nil rest
      by_cases h : c = '\n'
      · subst h
        cases hsp : splitOnNl rest with
        | nil => exact absurd hsp hne
        | cons l ls =>
            have hstep : splitOnNl ('\n' :: rest) = [] :: l :: ls := by
              simp [splitOnNl, hsp]
            rw [hsp] at ih
            rw [hstep, joinNl_cons_cons]
            simp [ih]
      · cases hsp : splitOnNl rest with
        | nil => exact absurd hsp hne
        | cons l ls =>
            have hstep : splitOnNl (c :: rest) = (c :: l) :: ls := by
              simp [splitOnNl, h, hsp]
            rw [hsp] at ih
            rw [hstep]
            cases ls with
            | nil =>
                simp only [joinNl] at ih ⊢
                rw [ih]
            | cons m ms =>
                rw [joinNl_cons_cons] at ih
                rw [joinNl_cons_cons, List.cons_append, ih]

/-- Replacing the last two joined parts by their newline-joined
concatenation does not change the overall join. -/
theorem joinNl_merge_last (u : List (List Char)) (a b : List Char) :
    joinNl (u ++ [a, b]) = joinNl (u ++ [a ++ '\n' :: b]) := by
  cases u with
  | nil =>
      rw [List.nil_append, List.nil_append, joinNl_cons_cons]
      rfl
  | cons x u2 =>
      rw [joinNl_append (x :: u2) [a, b] (by simp) (by simp),
        joinNl_append (x :: u2) [a ++ '\n' :: b] (by simp) (by simp), joinNl_cons_cons]
      rfl

/-- Contents glue invariant of the `split_large_file` loop: joining the
contents of the finalized chunk list equals joining the already-emitted
contents with the join of the current group extended by the remaining
lines. -/
theorem fileFold_contents (fc : FileChunker) (fp : String) :
    ∀ (lines : List (List Char)) (s : FileSplitState), s.current_chunk ≠ [] →
      joinNl ((finalizeFileSplit fp (lines.foldl (fileStep fc fp) s)).map
          (fun c => c.content)) =
        joinNl (s.chunks.map (fun c => c.content) ++
          [joinNl (s.current_chunk ++ lines)]) := by
  intro lines
  induction lines with
  | nil =>
      intro s h
      simp [finalizeFileSplit, h, mkFileChunk]
  | cons line rest ih =>
      intro s h
      rw [List.foldl_cons]
      by_cases hcond : fc.max_chunk_size < s.current_size + (line.length + 1) ∧
          s.current_chunk ≠ []
      · have hstep : fileStep fc fp s line =
            { chunks := s.chunks ++ [mkFileChunk fp s.chunk_index s.current_chunk]
              current_chunk := [line]
              current_size := line.length + 1
              chunk_index := s.chunk_index + 1 } := by
          simp only [fileStep]
          rw [if_pos hcond]
        rw [hstep, ih _ (by simp)]
        simp only [List.map_append, List.map_cons, List.map_nil, mkFileChunk,
          List.append_assoc, List.singleton_append, List.nil_append]
        rw [joinNl_merge_last]
        rw [← joinNl_append s.current_chunk (line :: rest) h (by simp)]
      · have hstep : fileStep fc fp s line =
            { s with
                current_chunk := s.current_chunk ++ [line]
                current_size := s.current_size + (line.length + 1) } := by
          simp only [fileStep]
          rw [if_neg hcond]
        rw [hstep, ih _ (by simp)]
        simp [List.append_assoc]

/-- Index invariant of the `split_large_file` loop: emitted chunk
indices are strictly increasing and below the running counter. -/
theorem fileFold_indices (fc : FileChunker) (fp : String) :
    ∀ (lines : List (List Char)) (s : FileSplitState),
      (s.chunks.Pairwise (fun a b => a.chunk_index < b.chunk_index) ∧
        ∀ c ∈ s.chunks, c.chunk_index < s.chunk_index) →
      ((lines.foldl (fileStep fc fp) s).chunks.Pairwise
          (fun a b => a.chunk_index < b.chunk_index) ∧
        ∀ c ∈ (lines.foldl (fileStep fc fp) s).chunks,
          c.chunk_index < (lines.foldl (fileStep fc fp) s).chunk_index) := by
  intro lines
  induction lines with
  | nil => exact fun s h => h
  | cons line rest ih =>
      intro s h
      obtain ⟨hpw, hbound⟩ := h
      rw [List.foldl_cons]
      by_cases hcond : fc.max_chunk_size < s.current_size + (line.length + 1) ∧
          s.current_chunk ≠ []
      · have hstep : fileStep fc fp s line =
            { chunks := s.chunks ++ [mkFileChunk fp s.chunk_index s.current_chunk]
              current_chunk := [line]
              current_size := line.length + 1
              chunk_index := s.chunk_index + 1 } := by
          simp only [fileStep]
          rw [if_pos hcond]
        rw [hstep]
        refine ih _ ⟨?_, ?_⟩
        · rw [List.pairwise_append]
          refine ⟨hpw, by simp, ?_⟩
          intro a ha b hb
          rw [List.mem_singleton.mp hb]
          exact hbound a ha
        · intro c hc
          rcases List.mem_append.mp hc with hc | hc
          · exact Nat.lt_succ_of_lt (hbound c hc)
          · rw [List.mem_singleton.mp hc]
            exact Nat.lt_succ_self _
      · have hstep : fileStep fc fp s line =
            { s with
                current_chunk := s.current_chunk ++ [line]
                current_size := s.current_size + (line.length + 1) } := by
          simp only [fileStep]
          rw [if_neg hcond]
        rw [hstep]
        exact ih _ ⟨hpw, hbound⟩

/-- The finalized chunk list of `split_large_file` is sorted by
`chunk_index`. -/
theorem finalizeFileSplit_sorted (fp : String) (s : FileSplitState)
    (hpw : s.chunks.Pairwise (fun a b => a.chunk_index < b.chunk_index))
    (hbound : ∀ c ∈ s.chunks, c.chunk_index < s.chunk_index) :
    (finalizeFileSplit fp s).Sorted chunkIndexLe := by
  unfold finalizeFileSplit
  by_cases h2 : s.current_chunk = []
  · rw [if_pos h2]
    exact hpw.imp Nat.le_of_lt
  · rw [if_neg h2]
    rw [List.Sorted, List.pairwise_append]
    refine ⟨hpw.imp Nat.le_of_lt, by simp, ?_⟩
    intro a ha b hb
    rw [List.mem_singleton.mp hb]
    exact Nat.le_of_lt (hbound a ha)

/-- Claim C10: for every file path, every content and every
`max_chunk_size`, merging the chunks produced by splitting the file
reconstructs the content exactly, including the single-chunk case and
contents whose individual lines exceed the chunk size. -/
theorem C10_theorem (fc : FileChunker) (file_path : String) (content : List Char) :
    merge_file_chunks (split_large_file fc file_path content) = content := by
  by_cases hlen : content.length ≤ fc.max_chunk_size
  · rw [split_large_file, if_pos hlen]
    rfl
  · rw [split_large_file, if_neg hlen]
    have hne := splitOnNl_ne_nil content
    cases hsp : splitOnNl content with
    | nil => exact absurd hsp hne
    | cons l0 ls =>
        simp only [hsp]
        have hfirst : fileStep fc file_path ⟨[], [], 0, 0⟩ l0 =
            ⟨[], [l0], l0.length + 1, 0⟩ := by
          simp [fileStep]
        rw [List.foldl_cons, hfirst]
        have hinv := fileFold_indices fc file_path ls ⟨[], [l0], l0.length + 1, 0⟩
          ⟨by simp, by simp⟩
        have hsorted := finalizeFileSplit_sorted file_path _ hinv.1 hinv.2
        rw [merge_file_chunks]
        rw [List.Sorted.insertionSort_eq hsorted]
        rw [fileFold_contents fc file_path ls ⟨[], [l0], l0.length + 1, 0⟩ (by simp)]
        have hrt := joinNl_splitOnNl content
        rw [hsp] at hrt
        simpa [joinNl] using hrt
